import Mathlib

/-!
# Verification of the GDAX historical-price core (`src/datamodels/gdax.go`)

A shallow embedding of the interval-partitioning, filtering, fetching and
normalization logic of `gdax.go`, together with proofs and refutations of the
specified properties.

## Modelling conventions

* Go `time.Time` values: every instant manipulated by `getIntervalPartition`
  is a midnight-of-some-day instant (the code starts from `roundTime(time.Now())`,
  which rounds to day granularity, and only ever applies `AddDate`, which
  preserves the clock time).  We therefore model such instants as civil dates:
  a `Date` is a triple of year, month, day.  `Before`/`After`/`Equal` on
  `time.Time` become lexicographic comparison of (normalized) dates.
* Go `AddDate(y, m, d)` calls `time.Date(year+y, month+m, day+d, ...)`, which
  first brings the month into `[1, 12]` by floor division (Go's `norm` helper,
  modelled by `normMonth`) and then resolves day-of-month overflow and
  underflow by converting through an absolute day count.  Resolving through an
  absolute day count is semantically the same as repeatedly borrowing from the
  previous month (while `day < 1`) or carrying into the next month (while
  `day > daysIn(year, month)`); `normDay` implements that carrying/borrowing
  directly, with an (amply sufficient) structural fuel so that everything
  evaluates by `decide`.
* Machine integers (`int64`, month/year ints): `Int` (no overflow is reachable
  at calendar magnitudes).
* `float64` row cells: modelled as `ℚ`.  `int64(f)` conversion is truncation
  toward zero (`floatToInt64`).  The exact shortest-decimal behaviour of
  `strconv.FormatFloat(v, 'f', -1, 64)` is binary-floating-point specific and
  is not modelled (see `formatPrice`).
* The HTTP transport is an explicit parameter `transport : String → TransportResult`;
  a response carries the two possible decodings of its body
  (as a candle array and as a `GdaxError` payload), each of which may fail
  with a message, mirroring what `json.Decode` can produce.
* On a transport error Go's code executes `response.Body.Close()` with
  `response = nil`, a nil-pointer dereference that panics instead of returning;
  the fetch outcome type has an explicit `panicked` constructor for this path.
-/

/-- Go `y%4 == 0 && (y%100 != 0 || y%400 == 0)` (the `isLeap` test used by
`time.Date` day normalization). Divisibility is mod-convention independent. -/
def isLeap (y : Int) : Bool := y % 4 == 0 && (y % 100 != 0 || y % 400 == 0)

/-- Number of days of month `m` (`1..12`) of year `y`, as in Go's `daysIn`. -/
def daysIn (y m : Int) : Int :=
  if m = 2 then (if isLeap y then 29 else 28)
  else if m = 4 ∨ m = 6 ∨ m = 9 ∨ m = 11 then 30
  else 31

/-- Cumulative days before month `m` in a non-leap year (Go's `daysBefore` table). -/
def dbmBase (m : Int) : Int :=
  if m = 1 then 0 else if m = 2 then 31 else if m = 3 then 59 else if m = 4 then 90
  else if m = 5 then 120 else if m = 6 then 151 else if m = 7 then 181
  else if m = 8 then 212 else if m = 9 then 243 else if m = 10 then 273
  else if m = 11 then 304 else if m = 12 then 334 else 0

/-- Cumulative days in year `y` before month `m` (`1..12`). -/
def dbm (y m : Int) : Int := dbmBase m + (if 3 ≤ m ∧ isLeap y then 1 else 0)

/-- Leap days among years strictly before year `y` (relative to year 0). -/
def leapsToYear (y : Int) : Int := (y - 1) / 4 - (y - 1) / 100 + (y - 1) / 400

/-- Absolute day index of January 1st of year `y` (day count from a fixed origin;
the same linearization Go uses internally via `absDate`/`daysSinceEpoch`,
up to a constant shift of origin). -/
def daysToYear (y : Int) : Int := 365 * y + leapsToYear y

/-- A civil date (a midnight instant). Field names follow the `year, month, day`
components of Go's `time.Date`. -/
structure Date where
  y : Int
  m : Int
  d : Int
deriving DecidableEq, Repr

/-- A normalized (calendar-valid) date. -/
def Date.valid (t : Date) : Prop :=
  1 ≤ t.m ∧ t.m ≤ 12 ∧ 1 ≤ t.d ∧ t.d ≤ daysIn t.y t.m

instance (t : Date) : Decidable t.valid := by unfold Date.valid ; exact inferInstance

/-- Absolute day index of a date: the linearization through which Go's
`time.Date` resolves day-of-month overflow. On normalized dates it is the
(time-ordered) day count of the instant. -/
def Date.lin (t : Date) : Int := daysToYear t.y + dbm t.y t.m + t.d

/-- `time.Time` order (`Before`/strict) on normalized dates. -/
def Date.lt (a b : Date) : Prop :=
  a.y < b.y ∨ (a.y = b.y ∧ (a.m < b.m ∨ (a.m = b.m ∧ a.d < b.d)))

/-- `time.Time` order (`Before`-or-`Equal`) on normalized dates. -/
def Date.le (a b : Date) : Prop :=
  a.y < b.y ∨ (a.y = b.y ∧ (a.m < b.m ∨ (a.m = b.m ∧ a.d ≤ b.d)))

instance (a b : Date) : Decidable (Date.lt a b) := by unfold Date.lt ; exact inferInstance

instance (a b : Date) : Decidable (Date.le a b) := by unfold Date.le ; exact inferInstance

/-- Go's `norm(year, month-1, 12)` month normalization from `time.Date`:
bring the month into `[1, 12]`, adjusting the year by floor division. -/
def normMonth (y m : Int) : Int × Int := (y + (m - 1) / 12, (m - 1) % 12 + 1)

/-- One borrow/carry pass resolving day-of-month under/overflow, fuelled.
Semantically identical (see header) to Go's resolution of the day component
through the absolute day count in `time.Date`. -/
def normDayAux : Nat → Int → Int → Int → Date
  | 0, y, m, d => ⟨y, m, d⟩
  | fuel + 1, y, m, d =>
    if d < 1 then
      let p := normMonth y (m - 1)
      normDayAux fuel p.1 p.2 (d + daysIn p.1 p.2)
    else if daysIn y m < d then
      let p := normMonth y (m + 1)
      normDayAux fuel p.1 p.2 (d - daysIn y m)
    else ⟨y, m, d⟩

/-- Day normalization: each borrow step raises `d` by at least 28 and each
carry step lowers it by at least 28, so `d.natAbs + 4` steps always reach the
normalized fixed point. -/
def normDay (y m d : Int) : Date := normDayAux (d.natAbs + 4) y m d

/-- Go `t.AddDate(years, months, days)` = `time.Date(y+years, m+months, d+days, ...)`:
normalize the month, then resolve the day. -/
def addDate (t : Date) (years months days : Int) : Date :=
  let p := normMonth (t.y + years) (t.m + months)
  normDay p.1 p.2 (t.d + days)

-- Sanity checks of the calendar model on concrete dates.
example : addDate ⟨2017, 1, 15⟩ 0 0 1 = ⟨2017, 1, 16⟩ := by decide
example : addDate ⟨2017, 1, 31⟩ 0 0 1 = ⟨2017, 2, 1⟩ := by decide
example : addDate ⟨2016, 2, 29⟩ 1 0 0 = ⟨2017, 3, 1⟩ := by decide
example : addDate ⟨2017, 8, 31⟩ 0 (-6) 0 = ⟨2017, 3, 3⟩ := by decide
example : addDate ⟨2017, 1, 1⟩ 0 0 (-1) = ⟨2016, 12, 31⟩ := by decide
example : addDate ⟨2017, 10, 31⟩ 0 (-6) 0 = ⟨2017, 5, 1⟩ := by decide

/-! ## Interval labels and granularities -/

/-- Modelled from the spec: the supported interval label constants
(`TWOYEAR`, ..., `DAY`) are declared elsewhere in the repository (outside
`src/`); the spec fixes a closed, case-insensitively matched set of seven
labels whose exact uppercase tokens are an implementation choice. -/
def TWOYEAR : String := "TWOYEAR"

/-- Modelled from the spec: see `TWOYEAR`. -/
def YEAR : String := "YEAR"

/-- Modelled from the spec: see `TWOYEAR`. -/
def SIXMONTH : String := "SIXMONTH"

/-- Modelled from the spec: see `TWOYEAR`. -/
def THREEMONTH : String := "THREEMONTH"

/-- Modelled from the spec: see `TWOYEAR`. -/
def MONTH : String := "MONTH"

/-- Modelled from the spec: see `TWOYEAR`. -/
def WEEK : String := "WEEK"

/-- Modelled from the spec: see `TWOYEAR`. -/
def DAY : String := "DAY"

/-- The seven supported interval labels. -/
def supportedIntervals : List String :=
  [TWOYEAR, YEAR, SIXMONTH, THREEMONTH, MONTH, WEEK, DAY]

def dailyBySeconds : Int := 86400

def sixhourBySeconds : Int := 21600

def hourBySeconds : Int := 3600

def fifteenminuteBySeconds : Int := 900

/-- The `gdaxIntervalToGranularity` map; Go map indexing yields the zero
value `0` for labels not in the map. -/
def gdaxIntervalToGranularity (s : String) : Int :=
  if s = TWOYEAR then dailyBySeconds
  else if s = YEAR then dailyBySeconds
  else if s = SIXMONTH then dailyBySeconds
  else if s = THREEMONTH then dailyBySeconds
  else if s = MONTH then sixhourBySeconds
  else if s = WEEK then hourBySeconds
  else if s = DAY then fifteenminuteBySeconds
  else 0

/-! ## The interval partitioner -/

/-- Go struct `timePeriod { start, end time.Time }` (the `end` field is named
`stop` here because `end` is a Lean keyword). -/
structure timePeriod where
  start : Date
  stop : Date
deriving DecidableEq, Repr

/-- Modelled from the spec: `roundTime` (defined elsewhere in the repository,
outside `src/`) rounds an instant to day granularity; our `Date` model already
has day resolution, so it is the identity on dates. -/
def roundTime (t : Date) : Date := t

/-- The `for timeIndex := ...; timeIndex.After(ago) || timeIndex.Equal(ago); timeIndex = timeIndex.AddDate(0, -6, 0)`
loops of the `TWOYEAR`/`YEAR` cases, appending `{timeIndex, timeIndex.AddDate(0, 6, 0)}`
each iteration.  The fuel bounds the iteration count; each step moves
`timeIndex` at least 181 days back while the windows are at most 731 days, so
5 iterations always reach the exit condition and fuel 8 is never exhausted. -/
def partitionLoopAux : Nat → Date → Date → List timePeriod
  | 0, _, _ => []
  | fuel + 1, ago, timeIndex =>
    if Date.le ago timeIndex then
      ⟨timeIndex, addDate timeIndex 0 6 0⟩ :: partitionLoopAux fuel ago (addDate timeIndex 0 (-6) 0)
    else []

/-- Go `getIntervalPartition`.  `today` stands for `time.Now()` (already at day
resolution in our model, see `roundTime`). -/
def getIntervalPartition (interval : String) (today : Date) : List timePeriod :=
  let nowRounded := addDate (roundTime today) 0 0 1
  if interval = TWOYEAR then
    partitionLoopAux 8 (addDate nowRounded (-2) 0 0) (addDate nowRounded 0 (-6) 0)
  else if interval = YEAR then
    partitionLoopAux 8 (addDate nowRounded (-1) 0 0) (addDate nowRounded 0 (-6) 0)
  else if interval = SIXMONTH then
    [⟨addDate nowRounded 0 (-6) 0, nowRounded⟩]
  else if interval = THREEMONTH then
    [⟨addDate nowRounded 0 (-3) 0, nowRounded⟩]
  else if interval = MONTH then
    [⟨addDate nowRounded 0 (-1) 0, nowRounded⟩]
  else if interval = WEEK then
    let first := addDate nowRounded 0 0 (-8)
    let second := addDate first 0 0 3
    let third := addDate second 0 0 3
    let fourth := addDate third 0 0 2
    [⟨third, fourth⟩, ⟨second, third⟩, ⟨first, second⟩]
  else if interval = DAY then
    [⟨addDate nowRounded 0 0 (-2), nowRounded⟩]
  else []

-- Sanity: the week partition at a mid-month date.
example :
    getIntervalPartition WEEK ⟨2017, 6, 15⟩ =
      [⟨⟨2017, 6, 14⟩, ⟨2017, 6, 16⟩⟩, ⟨⟨2017, 6, 11⟩, ⟨2017, 6, 14⟩⟩,
        ⟨⟨2017, 6, 8⟩, ⟨2017, 6, 11⟩⟩] := by decide

-- Sanity: the two-year partition at a mid-month date: four adjacent half-year windows.
example :
    getIntervalPartition TWOYEAR ⟨2017, 6, 15⟩ =
      [⟨⟨2016, 12, 16⟩, ⟨2017, 6, 16⟩⟩, ⟨⟨2016, 6, 16⟩, ⟨2016, 12, 16⟩⟩,
        ⟨⟨2015, 12, 16⟩, ⟨2016, 6, 16⟩⟩, ⟨⟨2015, 6, 16⟩, ⟨2015, 12, 16⟩⟩] := by decide

/-- The lookback window start the code aims at for each supported label,
measured from the advanced rounded-now (`nowRounded`): 2 years, 1 year,
6 months, 3 months, 1 month, 8 days, 2 days back respectively.  (For the
one-day label the code's window is two days, not one: one day of lookback
plus the one-day advance of `nowRounded`.) -/
def nominalWindowStart (interval : String) (nowRounded : Date) : Date :=
  if interval = TWOYEAR then addDate nowRounded (-2) 0 0
  else if interval = YEAR then addDate nowRounded (-1) 0 0
  else if interval = SIXMONTH then addDate nowRounded 0 (-6) 0
  else if interval = THREEMONTH then addDate nowRounded 0 (-3) 0
  else if interval = MONTH then addDate nowRounded 0 (-1) 0
  else if interval = WEEK then addDate nowRounded 0 0 (-8)
  else if interval = DAY then addDate nowRounded 0 0 (-2)
  else nowRounded

/-! ## Wire data model -/

/-- Modelled from the spec: the generic output unit `PricePoint` (declared
elsewhere in the repository, outside `src/`): an epoch-seconds timestamp paired
with a price rendered as a decimal string.  Constructed by the normalizer as
`PricePoint{int64(val[0]), price}`. -/
structure PricePoint where
  timestamp : Int
  price : String
deriving DecidableEq, Repr

/-- Modelled from the spec: `errors.MyError` (declared elsewhere in the
repository, outside `src/`): a typed failure carrying a message `Err` and a
numeric status code (Go zero value `0` when a composite literal omits it). -/
structure MyError where
  Err : String
  ErrorCode : Int
deriving DecidableEq, Repr

/-- Modelled from the spec: `trademodels.GdaxError` (declared elsewhere in the
repository, outside `src/`): the exchange error payload, a JSON object with a
`message` field. -/
structure GdaxError where
  message : String
deriving DecidableEq, Repr

/-- Result of one `json.NewDecoder(body).Decode(...)` attempt: the decoded
value, or a decode failure carrying `err.Error()`. -/
inductive BodyDecode (α : Type) where
  | ok (val : α)
  | fail (msg : String)
deriving DecidableEq

/-- What an HTTP response determines for this program: its status code and the
results of the two body decodings the code may attempt (candle array on
success status, `GdaxError` payload otherwise). -/
structure GdaxResponse where
  statusCode : Int
  candlesDecode : BodyDecode (List (List ℚ))
  errorDecode : BodyDecode GdaxError

/-- Outcome of `http.Get(url)`: a transport-level failure (for which Go's
`http.Get` yields a nil `*http.Response`), or a usable response. -/
inductive TransportResult where
  | failure
  | success (resp : GdaxResponse)

/-- Go's conversion `int64(f)` of a `float64`: truncation toward zero. -/
def floatToInt64 (q : ℚ) : Int := if q < 0 then ⌈q⌉ else ⌊q⌋

/-- Model of `strconv.FormatFloat(v, 'f', -1, 64)`.  The real function prints
the shortest decimal string that round-trips through binary `float64`; that
behaviour is specific to binary floating point and is not representable over
our `ℚ` model of the row cells, so this model is a concrete stand-in whose
output values no theorem of this file relies on (claims about the printed
digits themselves are out of scope of the embedding). -/
def formatPrice (q : ℚ) : String := toString q

/-- Go `generalizeGdaxBuckets`: the make-and-assign loop is an index-preserving
map; `val[0]`/`val[1]` are read unguarded (Go panics on rows of length < 2;
`List.getD` stands in for the read, which the length-≥-2 precondition of the
safety claim makes exact). -/
def generalizeGdaxBuckets (buckets : List (List ℚ)) : List PricePoint :=
  buckets.map (fun val => ⟨floatToInt64 (val.getD 0 0), formatPrice (val.getD 1 0)⟩)

/-- Unix seconds of a (midnight) date, as compared against `time.Unix(ts, 0)`
values inside `filterBuckets`. -/
def dateToUnix (t : Date) : Int := (t.lin - Date.lin ⟨1970, 1, 1⟩) * 86400

/-- Go `filterBuckets` over Unix-second instants: keep a bucket iff
`timestamp.Before(end) && timestamp.After(start) || timestamp.Equal(start) || timestamp.Equal(end)`
where `timestamp = time.Unix(int64(bucket[0]), 0)`. -/
def filterBuckets (start stop : Int) (buckets : List (List ℚ)) : List (List ℚ) :=
  buckets.filter (fun bucket =>
    let timestamp := floatToInt64 (bucket.getD 0 0)
    decide ((timestamp < stop ∧ start < timestamp) ∨ timestamp = start ∨ timestamp = stop))

/-! ## Request building and fetching -/

def gdaxHistoricalEndpoint : String := "https://api.gdax.com/products/BTC-USD/candles"

/-- Zero-padded two-digit rendering of a month/day component (`"01"`..`"31"`). -/
def pad2 (n : Int) : String := if n < 10 then "0" ++ toString n else toString n

/-- Zero-padded four-digit rendering of a year. -/
def pad4 (n : Int) : String :=
  if n < 10 then "000" ++ toString n
  else if n < 100 then "00" ++ toString n
  else if n < 1000 then "0" ++ toString n
  else toString n

/-- `start.Format("2006-01-02")`. -/
def formatDate (t : Date) : String := pad4 t.y ++ "-" ++ pad2 t.m ++ "-" ++ pad2 t.d

/-- Go `buildGdaxRequest`: the endpoint plus `granularity`, `start`, `end`
query parameters; `Query().Encode()` emits keys sorted alphabetically
(`end`, `granularity`, `start`).  The `http.NewRequest` error branch is
unreachable for this constant well-formed endpoint (a programming-error path
per the spec), so the model is total. -/
def buildGdaxRequest (granularity : Int) (start stop : Date) : String :=
  gdaxHistoricalEndpoint ++ "?end=" ++ formatDate stop ++ "&granularity="
    ++ toString granularity ++ "&start=" ++ formatDate start

/-- Result of `fetchGdaxBuckets`: the accumulated rows, an error, or the
nil-response panic of the transport-failure branch (see header notes). -/
inductive FetchOutcome where
  | ok (buckets : List (List ℚ))
  | err (e : MyError)
  | panicked
deriving DecidableEq

/-- The request loop of `fetchGdaxBuckets`, one iteration per `timePeriod`,
accumulating filtered rows in `buckets` (Go's `buckets = append(buckets, tempBuckets...)`). -/
def fetchLoopAux (transport : String → TransportResult) (granularity : Int) :
    List timePeriod → List (List ℚ) → FetchOutcome
  | [], buckets => .ok buckets
  | tp :: rest, buckets =>
    let requestString := buildGdaxRequest granularity tp.start tp.stop
    match transport requestString with
    | .failure =>
      -- Go: `response.Body.Close()` with `response == nil`: nil dereference.
      .panicked
    | .success response =>
      if response.statusCode = 200 then
        match response.candlesDecode with
        | .fail msg => .err ⟨msg, 500⟩
        | .ok tempBuckets =>
          fetchLoopAux transport granularity rest
            (buckets ++ filterBuckets (dateToUnix tp.start) (dateToUnix tp.stop) tempBuckets)
      else
        match response.errorDecode with
        | .fail msg => .err ⟨msg, 0⟩
        | .ok errResp => .err ⟨errResp.message, 0⟩

/-- Go `fetchGdaxBuckets`. -/
def fetchGdaxBuckets (transport : String → TransportResult) (interval : String)
    (today : Date) : FetchOutcome :=
  let intervalPartition := getIntervalPartition interval today
  let granularity := gdaxIntervalToGranularity interval
  fetchLoopAux transport granularity intervalPartition []

/-! ## Entry point -/

/-- What a call to `PollGdaxHistorical` does: either it returns its Go result
pair `([]PricePoint, *errors.MyError)` (each component possibly nil), or it
panics (nil-response dereference in the transport-failure branch). -/
inductive PollResult where
  | returns (series : Option (List PricePoint)) (error : Option MyError)
  | panicked
deriving DecidableEq

/-- Go `strings.ToUpper` (ASCII range; the interval labels involved are ASCII,
where Go's Unicode uppercasing and `Char.toUpper` agree). -/
def goToUpper (s : String) : String := ⟨s.data.map Char.toUpper⟩

/-- Go `PollGdaxHistorical`. -/
def PollGdaxHistorical (transport : String → TransportResult) (today : Date)
    (interval0 : String) : PollResult :=
  let interval := goToUpper interval0
  if gdaxIntervalToGranularity interval = 0 then
    .returns none (some ⟨"Please provide a valid interval; " ++ interval ++ " is invalid", 400⟩)
  else
    match fetchGdaxBuckets transport interval today with
    | .err myerror => .returns none (some myerror)
    | .panicked => .panicked
    | .ok buckets => .returns (some (generalizeGdaxBuckets buckets)) none

-- Sanity: an invalid label yields the 400 error, for any transport.
example :
    PollGdaxHistorical (fun _ => .failure) ⟨2017, 6, 15⟩ "bogus" =
      .returns none (some ⟨"Please provide a valid interval; BOGUS is invalid", 400⟩) := by
  decide

-- Sanity: a valid label with an unreachable endpoint hits the panicking branch.
example : PollGdaxHistorical (fun _ => .failure) ⟨2017, 6, 15⟩ "day" = .panicked := by
  decide

/-! ## Concrete dates and transports used in witnesses and counterexamples -/

/-- A concrete calendar-ordinary "today". -/
def cexToday : Date := ⟨2017, 6, 15⟩

/-- A transport on which every GET fails (endpoint unreachable): Go's
`http.Get` then yields a nil response. -/
def failingTransport : String → TransportResult := fun _ => .failure

/-- A transport that succeeds (HTTP 200, decodable empty candle array) on the
most recent week sub-range request at `cexToday` and fails on every other
request: the transport failure hits the second of the three week requests. -/
def secondFailsTransport : String → TransportResult := fun s =>
  if s = buildGdaxRequest hourBySeconds
      (addDate (addDate (addDate (addDate (roundTime cexToday) 0 0 1) 0 0 (-8)) 0 0 3) 0 0 3)
      (addDate (addDate (addDate (addDate (addDate (roundTime cexToday) 0 0 1) 0 0 (-8)) 0 0 3) 0 0 3) 0 0 2)
  then .success ⟨200, .ok [], .fail "json: array expected"⟩
  else .failure

/-- A transport answering every request with a 404 whose body decodes as a
`GdaxError` payload (and not as a candle array). -/
def errorRespTransport : String → TransportResult := fun _ =>
  .success ⟨404, .fail "json: object expected", .ok ⟨"NotFound"⟩⟩

/-- A transport answering every request with an empty decodable candle array. -/
def okTransport : String → TransportResult := fun _ =>
  .success ⟨200, .ok [], .fail "json: array given"⟩

/-! ## Calendar arithmetic lemmas -/

theorem daysIn_bounds (y m : Int) (h1 : 1 ≤ m) (h2 : m ≤ 12) :
    28 ≤ daysIn y m ∧ daysIn y m ≤ 31 := by
  unfold daysIn ; split <;> split <;> omega

theorem normMonth_id (y m : Int) (h1 : 1 ≤ m) (h2 : m ≤ 12) : normMonth y m = (y, m) := by
  simp only [normMonth, Prod.mk.injEq]
  omega

theorem normMonth_range (y m : Int) : 1 ≤ (normMonth y m).2 ∧ (normMonth y m).2 ≤ 12 := by
  simp only [normMonth]
  omega

theorem normMonth_comp (y a b : Int) :
    normMonth (normMonth y a).1 ((normMonth y a).2 + b) = normMonth y (a + b) := by
  simp only [normMonth, Prod.mk.injEq]
  omega

theorem dbm_succ (y m : Int) (h1 : 1 ≤ m) (h2 : m ≤ 11) :
    dbm y (m + 1) = dbm y m + daysIn y m := by
  unfold dbm dbmBase daysIn
  interval_cases m <;> by_cases hl : isLeap y = true <;> simp [hl] <;> omega

theorem daysToYear_succ (y : Int) :
    daysToYear (y + 1) = daysToYear y + 365 + (if isLeap y then 1 else 0) := by
  unfold daysToYear leapsToYear isLeap
  simp only [Bool.and_eq_true, beq_iff_eq, Bool.or_eq_true, bne_iff_ne, ne_eq]
  split <;> omega

theorem dbm_one (y : Int) : dbm y 1 = 0 := by simp [dbm, dbmBase]

theorem dbm_wrap (y : Int) :
    daysToYear y + dbm y 12 + daysIn y 12 = daysToYear (y + 1) + dbm (y + 1) 1 := by
  rw [daysToYear_succ, dbm_one]
  unfold dbm dbmBase daysIn
  split <;> simp_all <;> omega

theorem normDayAux_fixed (fuel : Nat) (y m d : Int) (h1 : 1 ≤ d) (h2 : d ≤ daysIn y m) :
    normDayAux fuel y m d = ⟨y, m, d⟩ := by
  cases fuel with
  | zero => rfl
  | succ f =>
    simp only [normDayAux]
    rw [if_neg (by omega), if_neg (by omega)]

/-- Moving to the previous month keeps the absolute day index of the first day
after that month. -/
theorem lin_borrow (y m : Int) (h1 : 1 ≤ m) (h2 : m ≤ 12) :
    daysToYear (normMonth y (m - 1)).1
        + dbm (normMonth y (m - 1)).1 (normMonth y (m - 1)).2
        + daysIn (normMonth y (m - 1)).1 (normMonth y (m - 1)).2
      = daysToYear y + dbm y m := by
  rcases eq_or_lt_of_le h1 with hm | hm
  · subst hm
    have hp : normMonth y (1 - 1) = (y - 1, 12) := by
      simp only [normMonth, Prod.mk.injEq] ; omega
    rw [hp]
    dsimp only
    have hw := dbm_wrap (y - 1)
    have hy : y - 1 + 1 = y := by ring
    rw [hy, dbm_one] at hw
    rw [dbm_one]
    omega
  · have hp : normMonth y (m - 1) = (y, m - 1) := normMonth_id y (m - 1) (by omega) (by omega)
    rw [hp]
    dsimp only
    have hs := dbm_succ y (m - 1) (by omega) (by omega)
    have hy : m - 1 + 1 = m := by ring
    rw [hy] at hs
    omega

/-- Moving to the next month advances the absolute day index base by the length
of the current month. -/
theorem lin_carry (y m : Int) (h1 : 1 ≤ m) (h2 : m ≤ 12) :
    daysToYear (normMonth y (m + 1)).1
        + dbm (normMonth y (m + 1)).1 (normMonth y (m + 1)).2
      = daysToYear y + dbm y m + daysIn y m := by
  rcases eq_or_lt_of_le h2 with hm | hm
  · subst hm
    have hp : normMonth y (12 + 1) = (y + 1, 1) := by
      simp only [normMonth, Prod.mk.injEq] ; omega
    rw [hp]
    dsimp only
    have hw := dbm_wrap y
    rw [dbm_one] at hw
    rw [dbm_one]
    omega
  · have hp : normMonth y (m + 1) = (y, m + 1) := normMonth_id y (m + 1) (by omega) (by omega)
    rw [hp]
    dsimp only
    have hs := dbm_succ y m (by omega) (by omega)
    omega

/-- As long as the starting day offset is in the band reachable by the
`AddDate` calls of this file (valid day 1..31 shifted by at most −28/+28),
day normalization needs at most two borrow/carry steps and yields a valid date
with the same absolute day index. -/
theorem normDayAux_spec (fuel : Nat) (y m d : Int) (hf : 2 ≤ fuel)
    (h1 : 1 ≤ m) (h2 : m ≤ 12) (h3 : -27 ≤ d) (h4 : d ≤ 59) :
    (normDayAux fuel y m d).valid ∧
      (normDayAux fuel y m d).lin = daysToYear y + dbm y m + d := by
  obtain ⟨f, rfl⟩ : ∃ f, fuel = f + 1 := ⟨fuel - 1, by omega⟩
  simp only [normDayAux]
  by_cases hb : d < 1
  · rw [if_pos hb]
    have hr := normMonth_range y (m - 1)
    have hdb := daysIn_bounds (normMonth y (m - 1)).1 (normMonth y (m - 1)).2 hr.1 hr.2
    have hlb := lin_borrow y m h1 h2
    rw [normDayAux_fixed f _ _ _ (by omega) (by omega)]
    simp only [Date.valid, Date.lin]
    refine ⟨⟨hr.1, hr.2, by omega, by omega⟩, by omega⟩
  · by_cases hc : daysIn y m < d
    · rw [if_neg hb, if_pos hc]
      have hdm := daysIn_bounds y m h1 h2
      have hr := normMonth_range y (m + 1)
      have hdb := daysIn_bounds (normMonth y (m + 1)).1 (normMonth y (m + 1)).2 hr.1 hr.2
      have hlc := lin_carry y m h1 h2
      by_cases hc2 : d - daysIn y m ≤ daysIn (normMonth y (m + 1)).1 (normMonth y (m + 1)).2
      · rw [normDayAux_fixed f _ _ _ (by omega) hc2]
        simp only [Date.valid, Date.lin]
        refine ⟨⟨hr.1, hr.2, by omega, by omega⟩, by omega⟩
      · obtain ⟨g, rfl⟩ : ∃ g, f = g + 1 := ⟨f - 1, by omega⟩
        simp only [normDayAux]
        rw [if_neg (by omega), if_pos (by omega)]
        have hr2 := normMonth_range (normMonth y (m + 1)).1 ((normMonth y (m + 1)).2 + 1)
        have hdb2 := daysIn_bounds (normMonth (normMonth y (m + 1)).1 ((normMonth y (m + 1)).2 + 1)).1
          (normMonth (normMonth y (m + 1)).1 ((normMonth y (m + 1)).2 + 1)).2 hr2.1 hr2.2
        have hlc2 := lin_carry (normMonth y (m + 1)).1 (normMonth y (m + 1)).2 hr.1 hr.2
        rw [normDayAux_fixed g _ _ _ (by omega) (by omega)]
        simp only [Date.valid, Date.lin]
        refine ⟨⟨hr2.1, hr2.2, by omega, by omega⟩, by omega⟩
    · rw [if_neg hb, if_neg hc]
      simp only [Date.valid, Date.lin]
      exact ⟨⟨h1, h2, by omega, by omega⟩, trivial⟩

/-- `normDay` on the reachable band: valid result, same absolute day index. -/
theorem normDay_spec (y m d : Int) (h1 : 1 ≤ m) (h2 : m ≤ 12) (h3 : -27 ≤ d) (h4 : d ≤ 59) :
    (normDay y m d).valid ∧ (normDay y m d).lin = daysToYear y + dbm y m + d :=
  normDayAux_spec (d.natAbs + 4) y m d (by omega) h1 h2 h3 h4

theorem daysToYear_mono_succ (y : Int) : daysToYear y + 365 ≤ daysToYear (y + 1) := by
  have h := daysToYear_succ y
  split at h <;> omega

theorem daysToYear_gap (y1 y2 : Int) (h : y1 < y2) : daysToYear y1 + 365 ≤ daysToYear y2 := by
  have h2 : y1 + 1 ≤ y2 := by omega
  exact @Int.le_induction (fun n => daysToYear y1 + 365 ≤ daysToYear n) (y1 + 1)
    (daysToYear_mono_succ y1)
    (fun n hn ih => by have := daysToYear_mono_succ n ; omega) y2 h2

theorem dbm_pos_bound (y m : Int) (h1 : 1 ≤ m) (h2 : m ≤ 12) :
    0 ≤ dbm y m ∧ dbm y m + daysIn y m ≤ 365 + (if isLeap y then 1 else 0) := by
  unfold dbm dbmBase daysIn
  interval_cases m <;> by_cases hl : isLeap y = true <;> simp [hl] <;> omega

theorem dbm_mono (y m1 m2 : Int) (h1 : 1 ≤ m1) (h : m1 < m2) (h2 : m2 ≤ 12) :
    dbm y m1 + daysIn y m1 ≤ dbm y m2 := by
  have h3 : m1 + 1 ≤ m2 := by omega
  refine @Int.le_induction (fun n => n ≤ 12 → dbm y m1 + daysIn y m1 ≤ dbm y n) (m1 + 1)
    (fun _ => (dbm_succ y m1 h1 (by omega)).ge) ?_ m2 h3 h2
  intro n hn ih hn12
  have hs := dbm_succ y n (by omega) (by omega)
  have hd := daysIn_bounds y n (by omega) (by omega)
  have := ih (by omega)
  omega

/-- A valid date lies strictly after New Year of its year... -/
theorem lin_year_lb (t : Date) (ht : t.valid) : daysToYear t.y < t.lin := by
  obtain ⟨hm1, hm2, hd1, hd2⟩ := ht
  have hb := dbm_pos_bound t.y t.m hm1 hm2
  unfold Date.lin
  omega

/-- ... and not after New Year of the next year. -/
theorem lin_year_ub (t : Date) (ht : t.valid) : t.lin ≤ daysToYear (t.y + 1) := by
  obtain ⟨hm1, hm2, hd1, hd2⟩ := ht
  have hb := dbm_pos_bound t.y t.m hm1 hm2
  have h1 := daysToYear_succ t.y
  unfold Date.lin
  by_cases hl : isLeap t.y = true <;> simp [hl] at h1 hb <;> omega

theorem lin_lt_of_date_lt (a b : Date) (ha : a.valid) (hb : b.valid) (h : Date.lt a b) :
    a.lin < b.lin := by
  obtain ⟨ham1, ham2, had1, had2⟩ := ha
  obtain ⟨hbm1, hbm2, hbd1, hbd2⟩ := hb
  have hadb := dbm_pos_bound a.y a.m ham1 ham2
  have hbdb := dbm_pos_bound b.y b.m hbm1 hbm2
  rcases h with hy | ⟨hy, hm | ⟨hm, hd⟩⟩
  · -- different years: a is at most the last day of its year
    have h1 := lin_year_ub a ⟨ham1, ham2, had1, had2⟩
    have h2 := lin_year_lb b ⟨hbm1, hbm2, hbd1, hbd2⟩
    have h3 : daysToYear (a.y + 1) ≤ daysToYear b.y := by
      rcases eq_or_lt_of_le (show a.y + 1 ≤ b.y by omega) with he | hlt
      · rw [he]
      · have := daysToYear_gap (a.y + 1) b.y hlt
        omega
    omega
  · -- same year, different months
    unfold Date.lin
    rw [hy] at had2 ⊢
    have := dbm_mono b.y a.m b.m ham1 hm (by omega)
    omega
  · -- same year and month
    unfold Date.lin
    rw [hy, hm]
    omega

theorem date_le_iff (a b : Date) (ha : a.valid) (hb : b.valid) :
    Date.le a b ↔ a.lin ≤ b.lin := by
  constructor
  · intro h
    have hcase : Date.lt a b ∨ a = b := by
      unfold Date.le at h
      unfold Date.lt
      rcases a with ⟨ay, am, ad⟩
      rcases b with ⟨cy, cm, cd⟩
      simp only [Date.mk.injEq]
      dsimp only at h ⊢
      omega
    rcases hcase with hlt | heq
    · exact (lin_lt_of_date_lt a b ha hb hlt).le
    · rw [heq]
  · intro h
    by_contra hn
    have hlt : Date.lt b a := by
      unfold Date.le at hn
      unfold Date.lt
      rcases a with ⟨ay, am, ad⟩
      rcases b with ⟨cy, cm, cd⟩
      dsimp only at hn ⊢
      omega
    have := lin_lt_of_date_lt b a hb ha hlt
    omega

theorem date_eq_of_lin_eq (a b : Date) (ha : a.valid) (hb : b.valid) (h : a.lin = b.lin) :
    a = b := by
  by_contra hne
  have hcase : Date.lt a b ∨ Date.lt b a := by
    unfold Date.lt
    rcases a with ⟨ay, am, ad⟩
    rcases b with ⟨cy, cm, cd⟩
    simp only [Date.mk.injEq] at hne
    dsimp only
    omega
  rcases hcase with h1 | h1
  · have := lin_lt_of_date_lt a b ha hb h1 ; omega
  · have := lin_lt_of_date_lt b a hb ha h1 ; omega

/-! ## `AddDate` lemmas -/

theorem addDate_days_spec (t : Date) (ht : t.valid) (k : Int) (h1 : -28 ≤ k) (h2 : k ≤ 28) :
    (addDate t 0 0 k).valid ∧ (addDate t 0 0 k).lin = t.lin + k := by
  obtain ⟨hm1, hm2, hd1, hd2⟩ := ht
  have hdb := daysIn_bounds t.y t.m hm1 hm2
  unfold addDate
  rw [show t.y + 0 = t.y by ring, show t.m + 0 = t.m by ring, normMonth_id t.y t.m hm1 hm2]
  dsimp only
  have hs := normDay_spec t.y t.m (t.d + k) hm1 hm2 (by omega) (by omega)
  refine ⟨hs.1, ?_⟩
  rw [hs.2]
  unfold Date.lin
  ring

theorem addDate_months_spec (t : Date) (ht : t.valid) (M : Int) :
    (addDate t 0 M 0).valid ∧
      (addDate t 0 M 0).lin
        = daysToYear (normMonth t.y (t.m + M)).1
            + dbm (normMonth t.y (t.m + M)).1 (normMonth t.y (t.m + M)).2 + t.d := by
  obtain ⟨hm1, hm2, hd1, hd2⟩ := ht
  have hdb := daysIn_bounds t.y t.m hm1 hm2
  have hr := normMonth_range t.y (t.m + M)
  unfold addDate
  rw [show t.y + 0 = t.y by ring]
  dsimp only
  have hs := normDay_spec (normMonth t.y (t.m + M)).1 (normMonth t.y (t.m + M)).2 (t.d + 0)
    hr.1 hr.2 (by omega) (by omega)
  simpa using hs

theorem addDate_years_spec (t : Date) (ht : t.valid) (Y : Int) :
    (addDate t Y 0 0).valid ∧
      (addDate t Y 0 0).lin = daysToYear (t.y + Y) + dbm (t.y + Y) t.m + t.d := by
  obtain ⟨hm1, hm2, hd1, hd2⟩ := ht
  have hdb := daysIn_bounds t.y t.m hm1 hm2
  unfold addDate
  rw [show t.m + 0 = t.m by ring, normMonth_id (t.y + Y) t.m hm1 hm2]
  dsimp only
  have hs := normDay_spec (t.y + Y) t.m (t.d + 0) hm1 hm2 (by omega) (by omega)
  simpa using hs

/-- The six calendar months ending just before month `m` total 181–184 days:
how far `AddDate(0, -6, 0)` moves the absolute day index base. -/
theorem monthWindow_sub6 (y m : Int) (h1 : 1 ≤ m) (h2 : m ≤ 12) :
    181 ≤ (daysToYear y + dbm y m)
        - (daysToYear (normMonth y (m - 6)).1 + dbm (normMonth y (m - 6)).1 (normMonth y (m - 6)).2)
      ∧ (daysToYear y + dbm y m)
        - (daysToYear (normMonth y (m - 6)).1 + dbm (normMonth y (m - 6)).1 (normMonth y (m - 6)).2)
      ≤ 184 := by
  by_cases hm : 7 ≤ m
  · rw [normMonth_id y (m - 6) (by omega) (by omega)]
    dsimp only
    unfold dbm dbmBase
    interval_cases m <;> by_cases hl : isLeap y = true <;> simp [hl] <;> omega
  · have hp : normMonth y (m - 6) = (y - 1, m + 6) := by
      simp only [normMonth, Prod.mk.injEq] ; omega
    rw [hp]
    dsimp only
    have hy := daysToYear_succ (y - 1)
    rw [show y - 1 + 1 = y by ring] at hy
    unfold dbm dbmBase
    interval_cases m <;>
      by_cases hl : isLeap y = true <;> by_cases hl2 : isLeap (y - 1) = true <;>
        simp [hl, hl2] at hy ⊢ <;> omega

/-- The six calendar months starting at month `m` total 181–184 days:
how far `AddDate(0, 6, 0)` moves the absolute day index base. -/
theorem monthWindow_add6 (y m : Int) (h1 : 1 ≤ m) (h2 : m ≤ 12) :
    181 ≤ (daysToYear (normMonth y (m + 6)).1 + dbm (normMonth y (m + 6)).1 (normMonth y (m + 6)).2)
        - (daysToYear y + dbm y m)
      ∧ (daysToYear (normMonth y (m + 6)).1 + dbm (normMonth y (m + 6)).1 (normMonth y (m + 6)).2)
        - (daysToYear y + dbm y m)
      ≤ 184 := by
  by_cases hm : m ≤ 6
  · rw [normMonth_id y (m + 6) (by omega) (by omega)]
    dsimp only
    unfold dbm dbmBase
    interval_cases m <;> by_cases hl : isLeap y = true <;> simp [hl] <;> omega
  · have hp : normMonth y (m + 6) = (y + 1, m - 6) := by
      simp only [normMonth, Prod.mk.injEq] ; omega
    rw [hp]
    dsimp only
    have hy := daysToYear_succ y
    unfold dbm dbmBase
    interval_cases m <;>
      by_cases hl : isLeap y = true <;> by_cases hl2 : isLeap (y + 1) = true <;>
        simp [hl, hl2] at hy ⊢ <;> omega

/-- `AddDate(0, -6, 0)` sends a valid date 181–184 days back. -/
theorem addDate_sub6_lin (t : Date) (ht : t.valid) :
    (addDate t 0 (-6) 0).valid ∧
      t.lin - 184 ≤ (addDate t 0 (-6) 0).lin ∧ (addDate t 0 (-6) 0).lin ≤ t.lin - 181 := by
  have hs := addDate_months_spec t ht (-6)
  rw [show t.m + -6 = t.m - 6 by ring] at hs
  have hw := monthWindow_sub6 t.y t.m ht.1 ht.2.1
  refine ⟨hs.1, ?_, ?_⟩ <;> rw [hs.2] <;> unfold Date.lin <;> omega

/-- `AddDate(0, 6, 0)` sends a valid date 181–184 days forward. -/
theorem addDate_add6_lin (t : Date) (ht : t.valid) :
    (addDate t 0 6 0).valid ∧
      t.lin + 181 ≤ (addDate t 0 6 0).lin ∧ (addDate t 0 6 0).lin ≤ t.lin + 184 := by
  have hs := addDate_months_spec t ht 6
  have hw := monthWindow_add6 t.y t.m ht.1 ht.2.1
  refine ⟨hs.1, ?_, ?_⟩ <;> rw [hs.2] <;> unfold Date.lin <;> omega

/-- `AddDate(-1, 0, 0)` sends a valid date 365 or 366 days back. -/
theorem addDate_sub1y_lin (t : Date) (ht : t.valid) :
    (addDate t (-1) 0 0).valid ∧
      t.lin - 366 ≤ (addDate t (-1) 0 0).lin ∧ (addDate t (-1) 0 0).lin ≤ t.lin - 365 := by
  have hs := addDate_years_spec t ht (-1)
  have hy := daysToYear_succ (t.y + -1)
  rw [show t.y + -1 + 1 = t.y by ring] at hy
  refine ⟨hs.1, ?_, ?_⟩ <;> rw [hs.2] <;> unfold Date.lin dbm <;>
    by_cases hm3 : 3 ≤ t.m <;> by_cases hla : isLeap (t.y + -1) = true <;>
      by_cases hlc : isLeap t.y = true <;> simp [hm3, hla, hlc] at hy ⊢ <;> omega

/-- `AddDate(-2, 0, 0)` sends a valid date at least 730 days back. -/
theorem addDate_sub2y_le (t : Date) (ht : t.valid) :
    (addDate t (-2) 0 0).valid ∧ (addDate t (-2) 0 0).lin ≤ t.lin - 730 := by
  have hs := addDate_years_spec t ht (-2)
  have hy1 := daysToYear_succ (t.y + -2)
  have hy2 := daysToYear_succ (t.y + -2 + 1)
  rw [show t.y + -2 + 1 + 1 = t.y by ring] at hy2
  refine ⟨hs.1, ?_⟩
  rw [hs.2]
  unfold Date.lin dbm
  by_cases hm3 : 3 ≤ t.m <;> by_cases hla : isLeap (t.y + -2) = true <;>
    by_cases hlb : isLeap (t.y + -2 + 1) = true <;> by_cases hlc : isLeap t.y = true <;>
      simp [hm3, hla, hlb, hlc] at hy1 hy2 ⊢ <;> omega

/-- With day-of-month at most 28, month addition is the pure month shift:
no day carrying occurs. -/
theorem addDate_months_exact (t : Date) (ht : t.valid) (hd : t.d ≤ 28) (M : Int) :
    addDate t 0 M 0 = ⟨(normMonth t.y (t.m + M)).1, (normMonth t.y (t.m + M)).2, t.d⟩ := by
  obtain ⟨hm1, hm2, hd1, _⟩ := ht
  have hr := normMonth_range t.y (t.m + M)
  have hdb := daysIn_bounds (normMonth t.y (t.m + M)).1 (normMonth t.y (t.m + M)).2 hr.1 hr.2
  unfold addDate normDay
  rw [show t.y + 0 = t.y by ring]
  dsimp only
  rw [show t.d + 0 = t.d by ring]
  exact normDayAux_fixed _ _ _ _ hd1 (by omega)

/-- With day-of-month at most 28, year addition is the pure year shift. -/
theorem addDate_years_exact (t : Date) (ht : t.valid) (hd : t.d ≤ 28) (Y : Int) :
    addDate t Y 0 0 = ⟨t.y + Y, t.m, t.d⟩ := by
  obtain ⟨hm1, hm2, hd1, _⟩ := ht
  have hdb := daysIn_bounds (t.y + Y) t.m hm1 hm2
  unfold addDate normDay
  rw [show t.m + 0 = t.m by ring, normMonth_id (t.y + Y) t.m hm1 hm2]
  dsimp only
  rw [show t.d + 0 = t.d by ring]
  exact normDayAux_fixed _ _ _ _ hd1 (by omega)

/-- Day addition that stays inside the 1..28 band is plain addition on the day. -/
theorem addDate_days_exact (t : Date) (ht : t.valid) (k : Int)
    (hk1 : 1 ≤ t.d + k) (hk2 : t.d + k ≤ 28) :
    addDate t 0 0 k = ⟨t.y, t.m, t.d + k⟩ := by
  obtain ⟨hm1, hm2, hd1, _⟩ := ht
  have hdb := daysIn_bounds t.y t.m hm1 hm2
  unfold addDate normDay
  rw [show t.y + 0 = t.y by ring, show t.m + 0 = t.m by ring, normMonth_id t.y t.m hm1 hm2]
  dsimp only
  exact normDayAux_fixed _ _ _ _ hk1 (by omega)

/-- One calendar month back: 28–31 days back. -/
theorem addDate_sub1m_lin (t : Date) (ht : t.valid) :
    (addDate t 0 (-1) 0).valid ∧
      t.lin - 31 ≤ (addDate t 0 (-1) 0).lin ∧ (addDate t 0 (-1) 0).lin ≤ t.lin - 28 := by
  have hs := addDate_months_spec t ht (-1)
  rw [show t.m + -1 = t.m - 1 by ring] at hs
  have hb := lin_borrow t.y t.m ht.1 ht.2.1
  have hr := normMonth_range t.y (t.m - 1)
  have hdb := daysIn_bounds (normMonth t.y (t.m - 1)).1 (normMonth t.y (t.m - 1)).2 hr.1 hr.2
  refine ⟨hs.1, ?_, ?_⟩ <;> rw [hs.2] <;> unfold Date.lin <;> omega

/-- The three calendar months ending just before month `m` total 89–92 days. -/
theorem monthWindow_sub3 (y m : Int) (h1 : 1 ≤ m) (h2 : m ≤ 12) :
    89 ≤ (daysToYear y + dbm y m)
        - (daysToYear (normMonth y (m - 3)).1 + dbm (normMonth y (m - 3)).1 (normMonth y (m - 3)).2)
      ∧ (daysToYear y + dbm y m)
        - (daysToYear (normMonth y (m - 3)).1 + dbm (normMonth y (m - 3)).1 (normMonth y (m - 3)).2)
      ≤ 92 := by
  by_cases hm : 4 ≤ m
  · rw [normMonth_id y (m - 3) (by omega) (by omega)]
    dsimp only
    unfold dbm dbmBase
    interval_cases m <;> by_cases hl : isLeap y = true <;> simp [hl] <;> omega
  · have hp : normMonth y (m - 3) = (y - 1, m + 9) := by
      simp only [normMonth, Prod.mk.injEq] ; omega
    rw [hp]
    dsimp only
    have hy := daysToYear_succ (y - 1)
    rw [show y - 1 + 1 = y by ring] at hy
    unfold dbm dbmBase
    interval_cases m <;>
      by_cases hl : isLeap y = true <;> by_cases hl2 : isLeap (y - 1) = true <;>
        simp [hl, hl2] at hy ⊢ <;> omega

/-- `AddDate(0, -3, 0)`: 89–92 days back. -/
theorem addDate_sub3m_lin (t : Date) (ht : t.valid) :
    (addDate t 0 (-3) 0).valid ∧
      t.lin - 92 ≤ (addDate t 0 (-3) 0).lin ∧ (addDate t 0 (-3) 0).lin ≤ t.lin - 89 := by
  have hs := addDate_months_spec t ht (-3)
  rw [show t.m + -3 = t.m - 3 by ring] at hs
  have hw := monthWindow_sub3 t.y t.m ht.1 ht.2.1
  refine ⟨hs.1, ?_, ?_⟩ <;> rw [hs.2] <;> unfold Date.lin <;> omega

/-! ## Partition loop lemmas -/

theorem partitionLoopAux_pos (fuel : Nat) (ago t : Date) (h : Date.le ago t) :
    partitionLoopAux (fuel + 1) ago t
      = ⟨t, addDate t 0 6 0⟩ :: partitionLoopAux fuel ago (addDate t 0 (-6) 0) := by
  simp only [partitionLoopAux, if_pos h]

theorem partitionLoopAux_neg (fuel : Nat) (ago t : Date) (h : ¬ Date.le ago t) :
    partitionLoopAux (fuel + 1) ago t = [] := by
  simp only [partitionLoopAux, if_neg h]

theorem partitionLoopAux_head (fuel : Nat) (ago t : Date) :
    partitionLoopAux fuel ago t = []
      ∨ ∃ rest, partitionLoopAux fuel ago t = ⟨t, addDate t 0 6 0⟩ :: rest := by
  cases fuel with
  | zero => exact Or.inl rfl
  | succ f =>
    by_cases h : Date.le ago t
    · exact Or.inr ⟨_, partitionLoopAux_pos f ago t h⟩
    · exact Or.inl (partitionLoopAux_neg f ago t h)

/-! ## Per-label unfoldings of `getIntervalPartition` -/

theorem getIntervalPartition_TWOYEAR (today : Date) :
    getIntervalPartition TWOYEAR today =
      partitionLoopAux 8 (addDate (addDate (roundTime today) 0 0 1) (-2) 0 0)
        (addDate (addDate (roundTime today) 0 0 1) 0 (-6) 0) := rfl

theorem getIntervalPartition_YEAR (today : Date) :
    getIntervalPartition YEAR today =
      partitionLoopAux 8 (addDate (addDate (roundTime today) 0 0 1) (-1) 0 0)
        (addDate (addDate (roundTime today) 0 0 1) 0 (-6) 0) := rfl

theorem getIntervalPartition_SIXMONTH (today : Date) :
    getIntervalPartition SIXMONTH today =
      [⟨addDate (addDate (roundTime today) 0 0 1) 0 (-6) 0, addDate (roundTime today) 0 0 1⟩] := rfl

theorem getIntervalPartition_THREEMONTH (today : Date) :
    getIntervalPartition THREEMONTH today =
      [⟨addDate (addDate (roundTime today) 0 0 1) 0 (-3) 0, addDate (roundTime today) 0 0 1⟩] := rfl

theorem getIntervalPartition_MONTH (today : Date) :
    getIntervalPartition MONTH today =
      [⟨addDate (addDate (roundTime today) 0 0 1) 0 (-1) 0, addDate (roundTime today) 0 0 1⟩] := rfl

theorem getIntervalPartition_WEEK (today : Date) :
    getIntervalPartition WEEK today =
      [⟨addDate (addDate (addDate (addDate (roundTime today) 0 0 1) 0 0 (-8)) 0 0 3) 0 0 3,
          addDate (addDate (addDate (addDate (addDate (roundTime today) 0 0 1) 0 0 (-8)) 0 0 3) 0 0 3) 0 0 2⟩,
        ⟨addDate (addDate (addDate (roundTime today) 0 0 1) 0 0 (-8)) 0 0 3,
          addDate (addDate (addDate (addDate (roundTime today) 0 0 1) 0 0 (-8)) 0 0 3) 0 0 3⟩,
        ⟨addDate (addDate (roundTime today) 0 0 1) 0 0 (-8),
          addDate (addDate (addDate (roundTime today) 0 0 1) 0 0 (-8)) 0 0 3⟩] := rfl

theorem getIntervalPartition_DAY (today : Date) :
    getIntervalPartition DAY today =
      [⟨addDate (addDate (roundTime today) 0 0 1) 0 0 (-2), addDate (roundTime today) 0 0 1⟩] := rfl

/-! ## Claim C2 -/

/-- C2 counterexample: at `now = 2017-06-15` the week partition's ranges span
2, 3 and 3 days in their literal (most-recent-first) order — not 3, 3, 2 as
the claim states: the first (most recent) range spans two days. -/
theorem C2_cex :
    (getIntervalPartition WEEK ⟨2017, 6, 15⟩).map (fun r => r.stop.lin - r.start.lin)
        = [2, 3, 3]
      ∧ ([2, 3, 3] : List Int) ≠ [3, 3, 2] := by
  constructor
  · decide
  · decide

/-- C2 (amended): for a one-week interval the partitioner returns exactly three
TimeRanges tiling an 8-day lookback ending at advanced rounded-now, of sizes
2 days, 3 days, 3 days in that literal order with the most recent range first
(equivalently 3, 3, 2 in chronological order). -/
theorem C2_week_partition (now : Date) (hv : now.valid) :
    (getIntervalPartition WEEK now).map (fun r => r.stop.lin - r.start.lin) = [2, 3, 3]
      ∧ (getIntervalPartition WEEK now).head?.map timePeriod.stop
          = some (addDate (roundTime now) 0 0 1)
      ∧ List.Chain' (fun a b => b.stop = a.start) (getIntervalPartition WEEK now)
      ∧ (getIntervalPartition WEEK now).getLast?.map (fun r => r.start.lin)
          = some ((addDate (roundTime now) 0 0 1).lin - 8) := by
  rw [getIntervalPartition_WEEK]
  simp only [roundTime]
  have hn := addDate_days_spec now hv 1 (by omega) (by omega)
  have h1 := addDate_days_spec (addDate now 0 0 1) hn.1 (-8) (by omega) (by omega)
  have h2 := addDate_days_spec (addDate (addDate now 0 0 1) 0 0 (-8)) h1.1 3 (by omega) (by omega)
  have h3 := addDate_days_spec (addDate (addDate (addDate now 0 0 1) 0 0 (-8)) 0 0 3) h2.1 3
    (by omega) (by omega)
  have h4 := addDate_days_spec
    (addDate (addDate (addDate (addDate now 0 0 1) 0 0 (-8)) 0 0 3) 0 0 3) h3.1 2
    (by omega) (by omega)
  have h4n : addDate (addDate (addDate (addDate (addDate now 0 0 1) 0 0 (-8)) 0 0 3) 0 0 3) 0 0 2
      = addDate now 0 0 1 :=
    date_eq_of_lin_eq _ _ h4.1 hn.1 (by omega)
  refine ⟨?_, ?_, ?_, ?_⟩
  · simp only [List.map_cons, List.map_nil, List.cons.injEq, and_true]
    refine ⟨by omega, by omega, by omega⟩
  · rw [List.head?_cons, Option.map_some']
    rw [h4n]
  · simp [List.chain'_cons]
  · have hlast :
        ([⟨addDate (addDate (addDate (addDate now 0 0 1) 0 0 (-8)) 0 0 3) 0 0 3,
            addDate (addDate (addDate (addDate (addDate now 0 0 1) 0 0 (-8)) 0 0 3) 0 0 3) 0 0 2⟩,
          ⟨addDate (addDate (addDate now 0 0 1) 0 0 (-8)) 0 0 3,
            addDate (addDate (addDate (addDate now 0 0 1) 0 0 (-8)) 0 0 3) 0 0 3⟩,
          ⟨addDate (addDate now 0 0 1) 0 0 (-8),
            addDate (addDate (addDate now 0 0 1) 0 0 (-8)) 0 0 3⟩] : List timePeriod).getLast?
          = some ⟨addDate (addDate now 0 0 1) 0 0 (-8),
              addDate (addDate (addDate now 0 0 1) 0 0 (-8)) 0 0 3⟩ := rfl
    rw [hlast, Option.map_some', Option.some.injEq]
    dsimp only
    omega

/-- Witness for `C2_week_partition` at the concrete date 2017-06-15. -/
theorem C2_week_partition_witness :
    (Date.valid ⟨2017, 6, 15⟩)
      ∧ ((getIntervalPartition WEEK ⟨2017, 6, 15⟩).map (fun r => r.stop.lin - r.start.lin)
            = [2, 3, 3]
          ∧ (getIntervalPartition WEEK ⟨2017, 6, 15⟩).head?.map timePeriod.stop
              = some (addDate (roundTime ⟨2017, 6, 15⟩) 0 0 1)
          ∧ List.Chain' (fun a b => b.stop = a.start) (getIntervalPartition WEEK ⟨2017, 6, 15⟩)
          ∧ (getIntervalPartition WEEK ⟨2017, 6, 15⟩).getLast?.map (fun r => r.start.lin)
              = some ((addDate (roundTime ⟨2017, 6, 15⟩) 0 0 1).lin - 8)) :=
  ⟨by decide, C2_week_partition ⟨2017, 6, 15⟩ (by decide)⟩

/-- Ends are non-increasing along the six-month stepping loop. -/
theorem partitionLoop_chain (fuel : Nat) (ago t : Date) (hv : t.valid) :
    List.Chain' (fun a b : timePeriod => Date.le b.stop a.stop) (partitionLoopAux fuel ago t) := by
  induction fuel generalizing t with
  | zero => simp [partitionLoopAux]
  | succ f ih =>
    by_cases hg : Date.le ago t
    · rw [partitionLoopAux_pos f ago t hg]
      have hsub := addDate_sub6_lin t hv
      have hadd := addDate_add6_lin t hv
      refine List.chain'_cons'.mpr ⟨?_, ih (addDate t 0 (-6) 0) hsub.1⟩
      intro b hb
      rcases partitionLoopAux_head f ago (addDate t 0 (-6) 0) with he | ⟨rest, he⟩
      · rw [he] at hb
        simp at hb
      · rw [he] at hb
        simp only [List.head?_cons, Option.mem_def, Option.some.injEq] at hb
        subst hb
        have h2 := addDate_add6_lin (addDate t 0 (-6) 0) hsub.1
        dsimp only
        rw [date_le_iff _ _ h2.1 hadd.1]
        omega
    · rw [partitionLoopAux_neg f ago t hg]
      simp

/-! ## Claim C4 -/

/-- C4: for every supported interval label, the partition returned for any
valid date is reverse-chronological: each TimeRange's end is greater than or
equal to the end of the TimeRange that follows it in the sequence. -/
theorem C4_reverse_chronological (now : Date) (hv : now.valid) :
    ∀ interval ∈ supportedIntervals,
      List.Chain' (fun a b : timePeriod => Date.le b.stop a.stop)
        (getIntervalPartition interval now) := by
  have hn := addDate_days_spec now hv 1 (by omega) (by omega)
  intro interval hmem
  simp only [supportedIntervals, List.mem_cons, List.not_mem_nil, or_false] at hmem
  rcases hmem with rfl | rfl | rfl | rfl | rfl | rfl | rfl
  · rw [getIntervalPartition_TWOYEAR]
    simp only [roundTime]
    exact partitionLoop_chain 8 _ _ (addDate_sub6_lin (addDate now 0 0 1) hn.1).1
  · rw [getIntervalPartition_YEAR]
    simp only [roundTime]
    exact partitionLoop_chain 8 _ _ (addDate_sub6_lin (addDate now 0 0 1) hn.1).1
  · rw [getIntervalPartition_SIXMONTH]
    simp
  · rw [getIntervalPartition_THREEMONTH]
    simp
  · rw [getIntervalPartition_MONTH]
    simp
  · rw [getIntervalPartition_WEEK]
    simp only [roundTime]
    have h1 := addDate_days_spec (addDate now 0 0 1) hn.1 (-8) (by omega) (by omega)
    have h2 := addDate_days_spec (addDate (addDate now 0 0 1) 0 0 (-8)) h1.1 3 (by omega) (by omega)
    have h3 := addDate_days_spec (addDate (addDate (addDate now 0 0 1) 0 0 (-8)) 0 0 3) h2.1 3
      (by omega) (by omega)
    have h4 := addDate_days_spec
      (addDate (addDate (addDate (addDate now 0 0 1) 0 0 (-8)) 0 0 3) 0 0 3) h3.1 2
      (by omega) (by omega)
    simp only [List.chain'_cons, List.chain'_singleton, and_true]
    constructor
    · dsimp only
      rw [date_le_iff _ _ h3.1 h4.1]
      omega
    · dsimp only
      rw [date_le_iff _ _ h2.1 h3.1]
      omega
  · rw [getIntervalPartition_DAY]
    simp

/-- Witness for `C4_reverse_chronological` at 2017-06-15 with the two-year label. -/
theorem C4_reverse_chronological_witness :
    (Date.valid ⟨2017, 6, 15⟩) ∧ TWOYEAR ∈ supportedIntervals ∧
      List.Chain' (fun a b : timePeriod => Date.le b.stop a.stop)
        (getIntervalPartition TWOYEAR ⟨2017, 6, 15⟩) :=
  ⟨by decide, by decide,
    C4_reverse_chronological ⟨2017, 6, 15⟩ (by decide) TWOYEAR (by decide)⟩

theorem date_le_refl (a : Date) : Date.le a a := by
  unfold Date.le
  omega

/-- The two-year loop, for an advanced rounded-now whose day-of-month is at
most 28 (so no month-end day normalization occurs): exactly four half-year
ranges tiling `[N minus 24 months, N]`. -/
theorem partitionLoop_twoyear (N : Date) (hNv : N.valid) (hd : N.d ≤ 28) :
    partitionLoopAux 8 (addDate N (-2) 0 0) (addDate N 0 (-6) 0) ≠ []
      ∧ (partitionLoopAux 8 (addDate N (-2) 0 0) (addDate N 0 (-6) 0)).head?.map timePeriod.stop
          = some N
      ∧ (partitionLoopAux 8 (addDate N (-2) 0 0) (addDate N 0 (-6) 0)).getLast?.map timePeriod.start
          = some (addDate N (-2) 0 0)
      ∧ List.Chain' (fun a b => b.stop = a.start)
          (partitionLoopAux 8 (addDate N (-2) 0 0) (addDate N 0 (-6) 0))
      ∧ ∀ r ∈ partitionLoopAux 8 (addDate N (-2) 0 0) (addDate N 0 (-6) 0),
          Date.le r.start r.stop := by
  obtain ⟨ny, nm, nd⟩ := N
  have hv' := hNv
  obtain ⟨hm1, hm2, hd1, hd2⟩ := hv'
  dsimp only at hm1 hm2 hd1 hd2 hd
  -- the four loop time indexes, month-shift only (day ≤ 28)
  have hT1 := addDate_months_exact ⟨ny, nm, nd⟩ hNv hd (-6)
  dsimp only at hT1
  have hA1 := addDate_sub6_lin ⟨ny, nm, nd⟩ hNv
  rw [hT1] at hA1
  have hT2 := addDate_months_exact _ hA1.1 (by dsimp only ; omega) (-6)
  dsimp only at hT2
  have hc2 : normMonth (normMonth ny (nm + -6)).1 ((normMonth ny (nm + -6)).2 + -6)
      = normMonth ny (nm + -12) :=
    (normMonth_comp ny (nm + -6) (-6)).trans (congrArg (normMonth ny) (by ring))
  rw [hc2] at hT2
  have hA2 := addDate_sub6_lin _ hA1.1
  rw [hT2] at hA2
  have hT3 := addDate_months_exact _ hA2.1 (by dsimp only ; omega) (-6)
  dsimp only at hT3
  have hc3 : normMonth (normMonth ny (nm + -12)).1 ((normMonth ny (nm + -12)).2 + -6)
      = normMonth ny (nm + -18) :=
    (normMonth_comp ny (nm + -12) (-6)).trans (congrArg (normMonth ny) (by ring))
  rw [hc3] at hT3
  have hA3 := addDate_sub6_lin _ hA2.1
  rw [hT3] at hA3
  have hT4 := addDate_months_exact _ hA3.1 (by dsimp only ; omega) (-6)
  dsimp only at hT4
  have hc4 : normMonth (normMonth ny (nm + -18)).1 ((normMonth ny (nm + -18)).2 + -6)
      = (ny + -2, nm) :=
    (normMonth_comp ny (nm + -18) (-6)).trans
      (by simp only [normMonth, Prod.mk.injEq] ; omega)
  rw [hc4] at hT4
  dsimp only at hT4
  -- the bound
  have hBnd := addDate_years_exact ⟨ny, nm, nd⟩ hNv hd (-2)
  dsimp only at hBnd
  have hB2 := addDate_sub2y_le ⟨ny, nm, nd⟩ hNv
  rw [hBnd] at hB2
  -- the range ends
  have hE1 := addDate_months_exact _ hA1.1 (by dsimp only ; omega) 6
  dsimp only at hE1
  have hce1 : normMonth (normMonth ny (nm + -6)).1 ((normMonth ny (nm + -6)).2 + 6)
      = (ny, nm) :=
    (normMonth_comp ny (nm + -6) 6).trans
      (by rw [show nm + -6 + 6 = nm by ring] ; exact normMonth_id ny nm hm1 hm2)
  rw [hce1] at hE1
  dsimp only at hE1
  have hE2 := addDate_months_exact _ hA2.1 (by dsimp only ; omega) 6
  dsimp only at hE2
  have hce2 : normMonth (normMonth ny (nm + -12)).1 ((normMonth ny (nm + -12)).2 + 6)
      = normMonth ny (nm + -6) :=
    (normMonth_comp ny (nm + -12) 6).trans (congrArg (normMonth ny) (by ring))
  rw [hce2] at hE2
  have hE3 := addDate_months_exact _ hA3.1 (by dsimp only ; omega) 6
  dsimp only at hE3
  have hce3 : normMonth (normMonth ny (nm + -18)).1 ((normMonth ny (nm + -18)).2 + 6)
      = normMonth ny (nm + -12) :=
    (normMonth_comp ny (nm + -18) 6).trans (congrArg (normMonth ny) (by ring))
  rw [hce3] at hE3
  have hE4 := addDate_months_exact ⟨ny + -2, nm, nd⟩ hB2.1 (by dsimp only ; omega) 6
  dsimp only at hE4
  have hce4 : normMonth (ny + -2) (nm + 6) = normMonth ny (nm + -18) := by
    simp only [normMonth, Prod.mk.injEq]
    omega
  rw [hce4] at hE4
  -- guards
  have g1 : Date.le ⟨ny + -2, nm, nd⟩ ⟨(normMonth ny (nm + -6)).1, (normMonth ny (nm + -6)).2, nd⟩ :=
    (date_le_iff _ _ hB2.1 hA1.1).mpr (by omega)
  have g2 : Date.le ⟨ny + -2, nm, nd⟩ ⟨(normMonth ny (nm + -12)).1, (normMonth ny (nm + -12)).2, nd⟩ :=
    (date_le_iff _ _ hB2.1 hA2.1).mpr (by omega)
  have g3 : Date.le ⟨ny + -2, nm, nd⟩ ⟨(normMonth ny (nm + -18)).1, (normMonth ny (nm + -18)).2, nd⟩ :=
    (date_le_iff _ _ hB2.1 hA3.1).mpr (by omega)
  have g4 : Date.le ⟨ny + -2, nm, nd⟩ ⟨ny + -2, nm, nd⟩ := date_le_refl _
  have hA5 := addDate_sub6_lin ⟨ny + -2, nm, nd⟩ hB2.1
  have g5 : ¬ Date.le ⟨ny + -2, nm, nd⟩ (addDate ⟨ny + -2, nm, nd⟩ 0 (-6) 0) := by
    rw [date_le_iff _ _ hB2.1 hA5.1]
    omega
  -- unfold the loop
  have hlist : partitionLoopAux 8 (addDate ⟨ny, nm, nd⟩ (-2) 0 0) (addDate ⟨ny, nm, nd⟩ 0 (-6) 0)
      = [⟨⟨(normMonth ny (nm + -6)).1, (normMonth ny (nm + -6)).2, nd⟩, ⟨ny, nm, nd⟩⟩,
         ⟨⟨(normMonth ny (nm + -12)).1, (normMonth ny (nm + -12)).2, nd⟩,
          ⟨(normMonth ny (nm + -6)).1, (normMonth ny (nm + -6)).2, nd⟩⟩,
         ⟨⟨(normMonth ny (nm + -18)).1, (normMonth ny (nm + -18)).2, nd⟩,
          ⟨(normMonth ny (nm + -12)).1, (normMonth ny (nm + -12)).2, nd⟩⟩,
         ⟨⟨ny + -2, nm, nd⟩,
          ⟨(normMonth ny (nm + -18)).1, (normMonth ny (nm + -18)).2, nd⟩⟩] := by
    rw [hBnd, hT1]
    rw [show (8 : Nat) = 7 + 1 from rfl, partitionLoopAux_pos 7 _ _ g1, hT2]
    rw [show (7 : Nat) = 6 + 1 from rfl, partitionLoopAux_pos 6 _ _ g2, hT3]
    rw [show (6 : Nat) = 5 + 1 from rfl, partitionLoopAux_pos 5 _ _ g3, hT4]
    rw [show (5 : Nat) = 4 + 1 from rfl, partitionLoopAux_pos 4 _ _ g4]
    rw [show (4 : Nat) = 3 + 1 from rfl, partitionLoopAux_neg 3 _ _ g5]
    rw [hE1, hE2, hE3, hE4]
  rw [hlist]
  refine ⟨by simp, by simp, ?_, ?_, ?_⟩
  · rw [hBnd]
    rfl
  · simp only [List.chain'_cons, List.chain'_singleton, and_true]
  · intro r hr
    simp only [List.mem_cons, List.not_mem_nil, or_false] at hr
    rcases hr with rfl | rfl | rfl | rfl <;> dsimp only
    · exact (date_le_iff _ _ hA1.1 hNv).mpr (by omega)
    · exact (date_le_iff _ _ hA2.1 hA1.1).mpr (by omega)
    · exact (date_le_iff _ _ hA3.1 hA2.1).mpr (by omega)
    · exact (date_le_iff _ _ hB2.1 hA3.1).mpr (by omega)

/-- The one-year loop under the same no-carry conditions: exactly two
half-year ranges tiling `[N minus 12 months, N]`. -/
theorem partitionLoop_year (N : Date) (hNv : N.valid) (hd : N.d ≤ 28) :
    partitionLoopAux 8 (addDate N (-1) 0 0) (addDate N 0 (-6) 0) ≠ []
      ∧ (partitionLoopAux 8 (addDate N (-1) 0 0) (addDate N 0 (-6) 0)).head?.map timePeriod.stop
          = some N
      ∧ (partitionLoopAux 8 (addDate N (-1) 0 0) (addDate N 0 (-6) 0)).getLast?.map timePeriod.start
          = some (addDate N (-1) 0 0)
      ∧ List.Chain' (fun a b => b.stop = a.start)
          (partitionLoopAux 8 (addDate N (-1) 0 0) (addDate N 0 (-6) 0))
      ∧ ∀ r ∈ partitionLoopAux 8 (addDate N (-1) 0 0) (addDate N 0 (-6) 0),
          Date.le r.start r.stop := by
  obtain ⟨ny, nm, nd⟩ := N
  have hv' := hNv
  obtain ⟨hm1, hm2, hd1, hd2⟩ := hv'
  dsimp only at hm1 hm2 hd1 hd2 hd
  have hT1 := addDate_months_exact ⟨ny, nm, nd⟩ hNv hd (-6)
  dsimp only at hT1
  have hA1 := addDate_sub6_lin ⟨ny, nm, nd⟩ hNv
  rw [hT1] at hA1
  have hT2 := addDate_months_exact _ hA1.1 (by dsimp only ; omega) (-6)
  dsimp only at hT2
  have hc2 : normMonth (normMonth ny (nm + -6)).1 ((normMonth ny (nm + -6)).2 + -6)
      = (ny + -1, nm) :=
    (normMonth_comp ny (nm + -6) (-6)).trans
      (by simp only [normMonth, Prod.mk.injEq] ; omega)
  rw [hc2] at hT2
  dsimp only at hT2
  have hBnd := addDate_years_exact ⟨ny, nm, nd⟩ hNv hd (-1)
  dsimp only at hBnd
  have hB1 := addDate_sub1y_lin ⟨ny, nm, nd⟩ hNv
  rw [hBnd] at hB1
  have hE1 := addDate_months_exact _ hA1.1 (by dsimp only ; omega) 6
  dsimp only at hE1
  have hce1 : normMonth (normMonth ny (nm + -6)).1 ((normMonth ny (nm + -6)).2 + 6)
      = (ny, nm) :=
    (normMonth_comp ny (nm + -6) 6).trans
      (by rw [show nm + -6 + 6 = nm by ring] ; exact normMonth_id ny nm hm1 hm2)
  rw [hce1] at hE1
  dsimp only at hE1
  have hE2 := addDate_months_exact ⟨ny + -1, nm, nd⟩ hB1.1 (by dsimp only ; omega) 6
  dsimp only at hE2
  have hce2 : normMonth (ny + -1) (nm + 6) = normMonth ny (nm + -6) := by
    simp only [normMonth, Prod.mk.injEq]
    omega
  rw [hce2] at hE2
  have g1 : Date.le ⟨ny + -1, nm, nd⟩ ⟨(normMonth ny (nm + -6)).1, (normMonth ny (nm + -6)).2, nd⟩ :=
    (date_le_iff _ _ hB1.1 hA1.1).mpr (by omega)
  have g2 : Date.le ⟨ny + -1, nm, nd⟩ ⟨ny + -1, nm, nd⟩ := date_le_refl _
  have hA3 := addDate_sub6_lin ⟨ny + -1, nm, nd⟩ hB1.1
  have g3 : ¬ Date.le ⟨ny + -1, nm, nd⟩ (addDate ⟨ny + -1, nm, nd⟩ 0 (-6) 0) := by
    rw [date_le_iff _ _ hB1.1 hA3.1]
    omega
  have hlist : partitionLoopAux 8 (addDate ⟨ny, nm, nd⟩ (-1) 0 0) (addDate ⟨ny, nm, nd⟩ 0 (-6) 0)
      = [⟨⟨(normMonth ny (nm + -6)).1, (normMonth ny (nm + -6)).2, nd⟩, ⟨ny, nm, nd⟩⟩,
         ⟨⟨ny + -1, nm, nd⟩,
          ⟨(normMonth ny (nm + -6)).1, (normMonth ny (nm + -6)).2, nd⟩⟩] := by
    rw [hBnd, hT1]
    rw [show (8 : Nat) = 7 + 1 from rfl, partitionLoopAux_pos 7 _ _ g1, hT2]
    rw [show (7 : Nat) = 6 + 1 from rfl, partitionLoopAux_pos 6 _ _ g2]
    rw [show (6 : Nat) = 5 + 1 from rfl, partitionLoopAux_neg 5 _ _ g3]
    rw [hE1, hE2]
  rw [hlist]
  refine ⟨by simp, by simp, ?_, ?_, ?_⟩
  · rw [hBnd]
    rfl
  · simp only [List.chain'_cons, List.chain'_singleton, and_true]
  · intro r hr
    simp only [List.mem_cons, List.not_mem_nil, or_false] at hr
    rcases hr with rfl | rfl <;> dsimp only
    · exact (date_le_iff _ _ hA1.1 hNv).mpr (by omega)
    · exact (date_le_iff _ _ hB1.1 hA1.1).mpr (by omega)

/-! ## Claim C1 -/

/-- C1 counterexample, at `now = 2017-08-30` (so advanced rounded-now is
2017-08-31): the one-day partition's single range spans two days, not one;
and the two-year partition's most recent range ends at 2017-09-03, beyond
rounded-now — its union does not exactly cover the two-year lookback window. -/
theorem C1_cex :
    ((getIntervalPartition DAY ⟨2017, 8, 30⟩).map (fun r => r.stop.lin - r.start.lin) = [2]
        ∧ (2 : Int) ≠ 1)
      ∧ ((getIntervalPartition TWOYEAR ⟨2017, 8, 30⟩).head?.map timePeriod.stop
            = some ⟨2017, 9, 3⟩
          ∧ addDate (roundTime ⟨2017, 8, 30⟩) 0 0 1 = ⟨2017, 8, 31⟩
          ∧ (⟨2017, 9, 3⟩ : Date) ≠ ⟨2017, 8, 31⟩) := by
  refine ⟨⟨by decide, by decide⟩, by decide, by decide, by decide⟩

/-- C1 (amended): for every supported interval label, when the advanced
rounded-now's day-of-month is at most 28 (so no month-end day normalization
occurs inside `AddDate`'s month steps), the partitioner returns a non-empty
sequence of TimeRanges whose union exactly tiles, gap-free and
most-recent-first, the code's lookback window
`[nominalWindowStart, nowRounded]`; in particular the one-day interval's
single range spans exactly two days (one day of lookback plus the one-day
advance of rounded-now), not one. -/
theorem C1_partition_covers (now : Date) (hv : now.valid)
    (hd28 : (addDate (roundTime now) 0 0 1).d ≤ 28) :
    ∀ interval ∈ supportedIntervals,
      getIntervalPartition interval now ≠ []
        ∧ (getIntervalPartition interval now).head?.map timePeriod.stop
            = some (addDate (roundTime now) 0 0 1)
        ∧ (getIntervalPartition interval now).getLast?.map timePeriod.start
            = some (nominalWindowStart interval (addDate (roundTime now) 0 0 1))
        ∧ List.Chain' (fun a b => b.stop = a.start) (getIntervalPartition interval now)
        ∧ (∀ r ∈ getIntervalPartition interval now, Date.le r.start r.stop)
        ∧ (interval = DAY →
            (addDate (roundTime now) 0 0 1).lin
              - (nominalWindowStart interval (addDate (roundTime now) 0 0 1)).lin = 2) := by
  have hn := addDate_days_spec now hv 1 (by omega) (by omega)
  have hnd : (addDate now 0 0 1).d ≤ 28 := hd28
  intro interval hmem
  simp only [supportedIntervals, List.mem_cons, List.not_mem_nil, or_false] at hmem
  rcases hmem with rfl | rfl | rfl | rfl | rfl | rfl | rfl
  · -- TWOYEAR
    rw [getIntervalPartition_TWOYEAR]
    simp only [roundTime]
    have H := partitionLoop_twoyear (addDate now 0 0 1) hn.1 hnd
    refine ⟨H.1, H.2.1, ?_, H.2.2.2.1, H.2.2.2.2, fun h => absurd h (by decide)⟩
    have hw : nominalWindowStart TWOYEAR (addDate now 0 0 1)
        = addDate (addDate now 0 0 1) (-2) 0 0 := rfl
    rw [hw]
    exact H.2.2.1
  · -- YEAR
    rw [getIntervalPartition_YEAR]
    simp only [roundTime]
    have H := partitionLoop_year (addDate now 0 0 1) hn.1 hnd
    refine ⟨H.1, H.2.1, ?_, H.2.2.2.1, H.2.2.2.2, fun h => absurd h (by decide)⟩
    have hw : nominalWindowStart YEAR (addDate now 0 0 1)
        = addDate (addDate now 0 0 1) (-1) 0 0 := rfl
    rw [hw]
    exact H.2.2.1
  · -- SIXMONTH
    rw [getIntervalPartition_SIXMONTH]
    simp only [roundTime]
    have hs := addDate_sub6_lin (addDate now 0 0 1) hn.1
    refine ⟨by simp, by simp, rfl, by simp, ?_, fun h => absurd h (by decide)⟩
    intro r hr
    simp only [List.mem_singleton] at hr
    subst hr
    exact (date_le_iff _ _ hs.1 hn.1).mpr (by omega)
  · -- THREEMONTH
    rw [getIntervalPartition_THREEMONTH]
    simp only [roundTime]
    have hs := addDate_sub3m_lin (addDate now 0 0 1) hn.1
    refine ⟨by simp, by simp, rfl, by simp, ?_, fun h => absurd h (by decide)⟩
    intro r hr
    simp only [List.mem_singleton] at hr
    subst hr
    exact (date_le_iff _ _ hs.1 hn.1).mpr (by omega)
  · -- MONTH
    rw [getIntervalPartition_MONTH]
    simp only [roundTime]
    have hs := addDate_sub1m_lin (addDate now 0 0 1) hn.1
    refine ⟨by simp, by simp, rfl, by simp, ?_, fun h => absurd h (by decide)⟩
    intro r hr
    simp only [List.mem_singleton] at hr
    subst hr
    exact (date_le_iff _ _ hs.1 hn.1).mpr (by omega)
  · -- WEEK
    rw [getIntervalPartition_WEEK]
    simp only [roundTime]
    have h1 := addDate_days_spec (addDate now 0 0 1) hn.1 (-8) (by omega) (by omega)
    have h2 := addDate_days_spec (addDate (addDate now 0 0 1) 0 0 (-8)) h1.1 3 (by omega) (by omega)
    have h3 := addDate_days_spec (addDate (addDate (addDate now 0 0 1) 0 0 (-8)) 0 0 3) h2.1 3
      (by omega) (by omega)
    have h4 := addDate_days_spec
      (addDate (addDate (addDate (addDate now 0 0 1) 0 0 (-8)) 0 0 3) 0 0 3) h3.1 2
      (by omega) (by omega)
    have h4n : addDate (addDate (addDate (addDate (addDate now 0 0 1) 0 0 (-8)) 0 0 3) 0 0 3) 0 0 2
        = addDate now 0 0 1 :=
      date_eq_of_lin_eq _ _ h4.1 hn.1 (by omega)
    refine ⟨by simp, ?_, rfl, ?_, ?_, fun h => absurd h (by decide)⟩
    · rw [List.head?_cons, Option.map_some']
      rw [h4n]
    · simp [List.chain'_cons]
    · intro r hr
      simp only [List.mem_cons, List.not_mem_nil, or_false] at hr
      rcases hr with rfl | rfl | rfl <;> dsimp only
      · exact (date_le_iff _ _ h3.1 h4.1).mpr (by omega)
      · exact (date_le_iff _ _ h2.1 h3.1).mpr (by omega)
      · exact (date_le_iff _ _ h1.1 h2.1).mpr (by omega)
  · -- DAY
    rw [getIntervalPartition_DAY]
    simp only [roundTime]
    have hs := addDate_days_spec (addDate now 0 0 1) hn.1 (-2) (by omega) (by omega)
    refine ⟨by simp, by simp, rfl, by simp, ?_, ?_⟩
    · intro r hr
      simp only [List.mem_singleton] at hr
      subst hr
      exact (date_le_iff _ _ hs.1 hn.1).mpr (by omega)
    · intro _
      have hw : nominalWindowStart DAY (addDate now 0 0 1)
          = addDate (addDate now 0 0 1) 0 0 (-2) := rfl
      rw [hw]
      omega

/-- Witness for `C1_partition_covers` at 2017-06-15 with the one-day label. -/
theorem C1_partition_covers_witness :
    (Date.valid ⟨2017, 6, 15⟩)
      ∧ (addDate (roundTime ⟨2017, 6, 15⟩) 0 0 1).d ≤ 28
      ∧ DAY ∈ supportedIntervals ∧
      (getIntervalPartition DAY ⟨2017, 6, 15⟩ ≠ []
        ∧ (getIntervalPartition DAY ⟨2017, 6, 15⟩).head?.map timePeriod.stop
            = some (addDate (roundTime ⟨2017, 6, 15⟩) 0 0 1)
        ∧ (getIntervalPartition DAY ⟨2017, 6, 15⟩).getLast?.map timePeriod.start
            = some (nominalWindowStart DAY (addDate (roundTime ⟨2017, 6, 15⟩) 0 0 1))
        ∧ List.Chain' (fun a b => b.stop = a.start) (getIntervalPartition DAY ⟨2017, 6, 15⟩)
        ∧ (∀ r ∈ getIntervalPartition DAY ⟨2017, 6, 15⟩, Date.le r.start r.stop)
        ∧ (DAY = DAY →
            (addDate (roundTime ⟨2017, 6, 15⟩) 0 0 1).lin
              - (nominalWindowStart DAY (addDate (roundTime ⟨2017, 6, 15⟩) 0 0 1)).lin = 2)) :=
  ⟨by decide, by decide, by decide,
    C1_partition_covers ⟨2017, 6, 15⟩ (by decide) (by decide) DAY (by decide)⟩

/-! ## Claim C3 -/

/-- C3: `filterBuckets` is boundary-inclusive: for a sub-range `[start, stop]`
a row is kept iff its timestamp lies in the closed interval — rows equal to
either boundary are kept, rows strictly outside are dropped. -/
theorem C3_filter_boundary_inclusive (start stop : Int) (hse : start ≤ stop)
    (buckets : List (List ℚ)) (b : List ℚ) :
    b ∈ filterBuckets start stop buckets
      ↔ b ∈ buckets
          ∧ start ≤ floatToInt64 (b.getD 0 0) ∧ floatToInt64 (b.getD 0 0) ≤ stop := by
  unfold filterBuckets
  rw [List.mem_filter]
  constructor
  · rintro ⟨hb, hcond⟩
    simp only [decide_eq_true_eq] at hcond
    exact ⟨hb, by omega, by omega⟩
  · rintro ⟨hb, h1, h2⟩
    refine ⟨hb, ?_⟩
    simp only [decide_eq_true_eq]
    omega

/-- Witness for `C3_filter_boundary_inclusive`: range `[0, 10]`, rows with
timestamps 5 and 11, queried at the row with timestamp 5. -/
theorem C3_filter_boundary_inclusive_witness :
    (0 : Int) ≤ 10
      ∧ ([5] ∈ filterBuckets 0 10 [[5], [11]]
          ↔ [5] ∈ [[(5 : ℚ)], [11]]
              ∧ (0 : Int) ≤ floatToInt64 (([(5 : ℚ)]).getD 0 0)
              ∧ floatToInt64 (([(5 : ℚ)]).getD 0 0) ≤ 10) :=
  ⟨by decide, C3_filter_boundary_inclusive 0 10 (by decide) [[5], [11]] [5]⟩

/-! ## Claim C5 -/

/-- C5 (code bug): when the transport GET fails — whether on the first request
or on the second of the week's three requests after the first succeeded — the
fetch does not return the intended transport error (`"Failed to reach GDAX
API"`, 500): it dereferences the nil response (`response.Body.Close()`) and
panics. -/
theorem C5_transport_failure_panics :
    fetchGdaxBuckets secondFailsTransport WEEK cexToday = .panicked
      ∧ fetchGdaxBuckets failingTransport WEEK cexToday = .panicked
      ∧ FetchOutcome.panicked ≠ .err ⟨"Failed to reach GDAX API", 500⟩ := by
  refine ⟨by decide, by decide, by decide⟩

/-! ## Claim C8 -/

/-- C8: a non-success status on any sub-range request — whatever results were
already accumulated — aborts the whole fetch with the decoded exchange error
message; if decoding the error payload itself fails, the decode failure is
returned instead. In either case no row list is returned. -/
theorem C8_non_success_status (transport : String → TransportResult) (granularity : Int)
    (buckets : List (List ℚ)) (tp : timePeriod) (rest : List timePeriod) (resp : GdaxResponse)
    (htr : transport (buildGdaxRequest granularity tp.start tp.stop) = .success resp)
    (hst : resp.statusCode ≠ 200) :
    (∀ e, resp.errorDecode = .ok e →
        fetchLoopAux transport granularity (tp :: rest) buckets = .err ⟨e.message, 0⟩)
      ∧ (∀ msg, resp.errorDecode = .fail msg →
          fetchLoopAux transport granularity (tp :: rest) buckets = .err ⟨msg, 0⟩) := by
  constructor <;> intro x hx <;>
    simp only [fetchLoopAux, htr, if_neg hst, hx]

/-- Witness for `C8_non_success_status`: a 404 response whose error payload
decodes to message `"NotFound"`. -/
theorem C8_non_success_status_witness :
    (errorRespTransport (buildGdaxRequest 900 cexToday cexToday)
        = .success ⟨404, .fail "json: object expected", .ok ⟨"NotFound"⟩⟩)
      ∧ ((404 : Int) ≠ 200)
      ∧ ((∀ e, (BodyDecode.ok (⟨"NotFound"⟩ : GdaxError)) = .ok e →
            fetchLoopAux errorRespTransport 900 [⟨cexToday, cexToday⟩] [] = .err ⟨e.message, 0⟩)
          ∧ (∀ msg, (BodyDecode.ok (⟨"NotFound"⟩ : GdaxError)) = .fail msg →
              fetchLoopAux errorRespTransport 900 [⟨cexToday, cexToday⟩] [] = .err ⟨msg, 0⟩)) :=
  ⟨rfl, by decide,
    C8_non_success_status errorRespTransport 900 [] ⟨cexToday, cexToday⟩ []
      ⟨404, .fail "json: object expected", .ok ⟨"NotFound"⟩⟩ rfl (by decide)⟩

/-! ## Claim C6 -/

/-- C6: a label whose uppercased form is not in the granularity table is
rejected with the descriptive 400 error — identically for every transport, so
no network call can influence (or be required for) the result — and label
matching is case-insensitive: only the uppercased label matters. -/
theorem C6_invalid_interval :
    (∀ (transport : String → TransportResult) (today : Date) (label : String),
        goToUpper label ∉ supportedIntervals →
          PollGdaxHistorical transport today label
            = .returns none (some ⟨"Please provide a valid interval; " ++ goToUpper label
                ++ " is invalid", 400⟩))
      ∧ (∀ (transport : String → TransportResult) (today : Date) (l1 l2 : String),
          goToUpper l1 = goToUpper l2 →
            PollGdaxHistorical transport today l1 = PollGdaxHistorical transport today l2) := by
  constructor
  · intro transport today label h
    simp only [supportedIntervals, List.mem_cons, List.not_mem_nil, or_false, not_or] at h
    obtain ⟨n1, n2, n3, n4, n5, n6, n7⟩ := h
    have hz : gdaxIntervalToGranularity (goToUpper label) = 0 := by
      unfold gdaxIntervalToGranularity
      rw [if_neg n1, if_neg n2, if_neg n3, if_neg n4, if_neg n5, if_neg n6, if_neg n7]
    unfold PollGdaxHistorical
    rw [if_pos hz]
  · intro transport today l1 l2 h
    unfold PollGdaxHistorical
    rw [h]

/-- Witness for `C6_invalid_interval`: the label `"bogus"` is rejected with
the 400 error under a dead transport, and `"Day"`/`"day"` are interchangeable. -/
theorem C6_invalid_interval_witness :
    (goToUpper "bogus" ∉ supportedIntervals
      ∧ PollGdaxHistorical failingTransport cexToday "bogus"
          = .returns none (some ⟨"Please provide a valid interval; " ++ goToUpper "bogus"
              ++ " is invalid", 400⟩))
      ∧ (goToUpper "Day" = goToUpper "day"
        ∧ PollGdaxHistorical failingTransport cexToday "Day"
            = PollGdaxHistorical failingTransport cexToday "day") :=
  ⟨⟨by decide, C6_invalid_interval.1 failingTransport cexToday "bogus" (by decide)⟩,
    ⟨by decide, C6_invalid_interval.2 failingTransport cexToday "Day" "day" (by decide)⟩⟩

/-! ## Claim C9 -/

/-- C9 counterexample: with an unreachable endpoint, `PollGdaxHistorical`
on a valid label does not return at all (nil-response panic, see C5) — in
particular it returns neither the series-only nor the error-only pair the
claim promises for every transport behavior. -/
theorem C9_cex :
    PollGdaxHistorical failingTransport cexToday "day" = .panicked
      ∧ PollResult.panicked ≠ .returns none (some ⟨"Failed to reach GDAX API", 500⟩)
      ∧ PollResult.panicked ≠ .returns (some []) none := by
  refine ⟨by decide, by decide, by decide⟩

/-- C9 (amended): whenever `PollGdaxHistorical` returns (transport failures
panic instead, see C5), it returns exactly one of a price series or an error:
the series is nil exactly when the error is non-nil, never both, never
neither. -/
theorem C9_series_xor_error (transport : String → TransportResult) (today : Date)
    (label : String) (s : Option (List PricePoint)) (e : Option MyError)
    (h : PollGdaxHistorical transport today label = .returns s e) :
    (s = none ∧ e ≠ none) ∨ (s ≠ none ∧ e = none) := by
  unfold PollGdaxHistorical at h
  dsimp only at h
  split at h
  · injection h with h1 h2
    subst h1
    subst h2
    simp
  · split at h
    · injection h with h1 h2
      subst h1
      subst h2
      simp
    · exact PollResult.noConfusion h
    · injection h with h1 h2
      subst h1
      subst h2
      simp

/-- Witness for `C9_series_xor_error`: a successful empty fetch returns the
(series, no error) pair. -/
theorem C9_series_xor_error_witness :
    PollGdaxHistorical okTransport cexToday "day" = .returns (some []) none
      ∧ (((some [] : Option (List PricePoint)) = none ∧ (none : Option MyError) ≠ none)
          ∨ ((some [] : Option (List PricePoint)) ≠ none ∧ (none : Option MyError) = none)) :=
  ⟨by decide, C9_series_xor_error okTransport cexToday "day" (some []) none (by decide)⟩

/-! ## Claim C10 -/

/-- C10: on row lists in which every row has at least two cells, the
normalizer is total and returns a series of exactly the same length, whose
`i`-th PricePoint is derived from the `i`-th row: timestamp from cell 0
truncated toward zero, price formatted from cell 1. -/
theorem C10_generalize_rows (buckets : List (List ℚ))
    (h : ∀ r ∈ buckets, 2 ≤ r.length) :
    (generalizeGdaxBuckets buckets).length = buckets.length
      ∧ ∀ i : Nat, (generalizeGdaxBuckets buckets)[i]?
          = (buckets[i]?).map
              (fun val => ⟨floatToInt64 (val.getD 0 0), formatPrice (val.getD 1 0)⟩) := by
  unfold generalizeGdaxBuckets
  refine ⟨List.length_map _ _, fun i => ?_⟩
  rw [List.getElem?_map]

/-- Witness for `C10_generalize_rows` on two concrete rows. -/
theorem C10_generalize_rows_witness :
    (∀ r ∈ [[(1 : ℚ), 2], [3, 4, 5]], 2 ≤ r.length)
      ∧ ((generalizeGdaxBuckets [[(1 : ℚ), 2], [3, 4, 5]]).length
            = ([[(1 : ℚ), 2], [3, 4, 5]] : List (List ℚ)).length
          ∧ ∀ i : Nat, (generalizeGdaxBuckets [[(1 : ℚ), 2], [3, 4, 5]])[i]?
              = (([[(1 : ℚ), 2], [3, 4, 5]] : List (List ℚ))[i]?).map
                  (fun val => ⟨floatToInt64 (val.getD 0 0), formatPrice (val.getD 1 0)⟩)) :=
  ⟨by decide, C10_generalize_rows [[(1 : ℚ), 2], [3, 4, 5]] (by decide)⟩
